import Mathlib

/-!
Verification of the video-resolver engine of this repository
(src/services/video_resolver.py): text normalization, multi-strategy
fuzzy similarity, the tiered decision classifier, the resolution
orchestrator and the positional lookup.

Strings are modelled as `List Char` (Unicode scalar values), similarity
scores as exact rationals (`ℚ`).  Python standard-library primitives used
by the source (`str.lower`, `unicodedata.normalize("NFKD", _)`, the regex
character classes `\w` and `\s`) are modelled for the code points this
development exercises, as documented on each definition.  The fuzzy
strategies themselves live in the third-party rapidfuzz library, so they
are modelled from the specification's description of each strategy; the
way `_similarity` combines them (which strategies enter the maximum, and
the length gate on the partial strategy) is translated directly from
`src/services/video_resolver.py`.
-/

set_option maxRecDepth 20000

/-- Python `str.lower`, modelled character-wise for the code points
exercised in this development: ASCII uppercase letters map to their
lowercase forms; code points with no lowercase mapping (for instance
U+2116 NUMERO SIGN, or any already-lowercase character) are unchanged. -/
def pyLower (c : Char) : Char :=
  if 65 ≤ c.toNat && c.toNat ≤ 90 then Char.ofNat (c.toNat + 32) else c

/-- Per-character NFKD compatibility decomposition, modelling Python
`unicodedata.normalize("NFKD", _)` applied character by character
(canonical reordering of combining marks does not arise for the code
points used here).  U+2116 NUMERO SIGN decomposes to the two letters
"No"; every other code point appearing in this development is
decomposition-free and maps to itself. -/
def nfkdChar (c : Char) : List Char :=
  if c = '№' then ['N', 'o'] else [c]

/-- NFKD of a whole string: concatenation of per-character decompositions. -/
def nfkd (l : List Char) : List Char := l.flatMap nfkdChar

/-- The character class of `_EMOJI_PATTERN` in video_resolver.py:
emoticons, symbols and pictographs, transport and map, flags, dingbats,
variation selectors, supplemental symbols, chess symbols, symbols
extended-A, miscellaneous symbols, and the zero-width joiner. -/
def isEmojiChar (c : Char) : Bool :=
  (0x1F600 ≤ c.toNat && c.toNat ≤ 0x1F64F) ||
  (0x1F300 ≤ c.toNat && c.toNat ≤ 0x1F5FF) ||
  (0x1F680 ≤ c.toNat && c.toNat ≤ 0x1F6FF) ||
  (0x1F1E0 ≤ c.toNat && c.toNat ≤ 0x1F1FF) ||
  (0x2702 ≤ c.toNat && c.toNat ≤ 0x27B0) ||
  (0xFE00 ≤ c.toNat && c.toNat ≤ 0xFE0F) ||
  (0x1F900 ≤ c.toNat && c.toNat ≤ 0x1F9FF) ||
  (0x1FA00 ≤ c.toNat && c.toNat ≤ 0x1FA6F) ||
  (0x1FA70 ≤ c.toNat && c.toNat ≤ 0x1FAFF) ||
  (0x2600 ≤ c.toNat && c.toNat ≤ 0x26FF) ||
  (c.toNat == 0x200D)

/-- Substituting the empty string for every maximal run of emoji
characters (`_EMOJI_PATTERN.sub("", text)`) deletes exactly the
characters of the class. -/
def removeEmoji (l : List Char) : List Char := l.filter (fun c => !isEmojiChar c)

/-- Python regex `\w` (a word character), modelled for the code points
exercised here: ASCII lowercase letters, uppercase letters, digits, and
the underscore (code point 95). -/
def pyIsWordChar (c : Char) : Bool :=
  (97 ≤ c.toNat && c.toNat ≤ 122) || (65 ≤ c.toNat && c.toNat ≤ 90) ||
    (48 ≤ c.toNat && c.toNat ≤ 57) || (c.toNat == 95)

/-- Python regex `\s` (a whitespace character), modelled as the ASCII
whitespace characters: space (32) and the control characters tab,
newline, vertical tab, form feed, carriage return (9–13). -/
def pyIsSpace (c : Char) : Bool :=
  (c.toNat == 32) || (9 ≤ c.toNat && c.toNat ≤ 13)

/-- State machine for `_HASHTAG_PATTERN.sub("", text)` with pattern
`#\w+`: a `#` immediately followed by at least one word character is
deleted together with the maximal run of word characters after it.  The
boolean argument records whether the scan is currently consuming such a
run. -/
def rhAux : Bool → List Char → List Char
  | _, [] => []
  | inTag, c :: rest =>
    if inTag && pyIsWordChar c then rhAux true rest
    else if c = '#' && (match rest with | [] => false | d :: _ => pyIsWordChar d) then
      rhAux true rest
    else c :: rhAux false rest

/-- Hashtag removal step of the normalizer. -/
def removeHashtags (l : List Char) : List Char := rhAux false l

/-- Punctuation removal, `re.sub(r"[^\w\s]", " ", text)`: every
character that is neither a word character nor whitespace becomes a
single space. -/
def punctToSpace (l : List Char) : List Char :=
  l.map (fun c => if pyIsWordChar c || pyIsSpace c then c else ' ')

/-- The maximal whitespace-free runs of a string, in order: each
non-space character either starts a new token (when the rest of the
string starts with whitespace or is empty) or extends the token the rest
of the string starts with. -/
def wsTokens : List Char → List (List Char)
  | [] => []
  | c :: rest =>
    if pyIsSpace c then wsTokens rest
    else
      match rest, wsTokens rest with
      | [], _ => [[c]]
      | d :: _, ts =>
        if pyIsSpace d then [c] :: ts
        else
          match ts with
          | [] => [[c]]
          | t :: ts' => (c :: t) :: ts'

/-- Join tokens with single spaces (Python `" ".join`). -/
def joinSpace : List (List Char) → List Char
  | [] => []
  | [t] => t
  | t :: ts => t ++ ' ' :: joinSpace ts

/-- Whitespace collapsing and trimming,
`re.sub(r"\s+", " ", text).strip()`: every maximal whitespace run
becomes one space and leading/trailing whitespace disappears, which is
exactly rejoining the whitespace-free tokens with single spaces. -/
def collapseWs (l : List Char) : List Char := joinSpace (wsTokens l)

/-- The function `_normalize` of video_resolver.py on character lists:
lowercase, NFKD, emoji removal, hashtag removal, punctuation to space,
whitespace collapse and trim, in this order. -/
def normalizeChars (l : List Char) : List Char :=
  collapseWs (punctToSpace (removeHashtags (removeEmoji (nfkd (l.map pyLower)))))

/-- The function `_normalize` of video_resolver.py on strings. -/
def _normalize (s : String) : String := String.mk (normalizeChars s.data)

/-- Longest-common-subsequence length with an explicit recursion budget;
the budget only makes the recursion structural and never runs out when it
starts at the summed length of the inputs. -/
def lcsLenFuel : Nat → List Char → List Char → Nat
  | 0, _, _ => 0
  | _ + 1, [], _ => 0
  | _ + 1, _ :: _, [] => 0
  | fuel + 1, a :: as, b :: bs =>
    if a = b then lcsLenFuel fuel as bs + 1
    else max (lcsLenFuel fuel (a :: as) bs) (lcsLenFuel fuel as (b :: bs))

/-- Length of a longest common subsequence: the number M of matching
characters under an optimal sequence alignment of the two strings. -/
def lcsLen (a b : List Char) : Nat := lcsLenFuel (a.length + b.length) a b

/-- Modelled from the spec: the character-level similarity
`2·M / (len a + len b)` scaled to 0–100, where M counts the matching
characters of an optimal sequence alignment (`lcsLen`).  Two empty
strings are identical and score 100. -/
def charSim (a b : List Char) : ℚ :=
  if a.length + b.length = 0 then 100
  else 200 * (lcsLen a b : ℚ) / ((a.length : ℚ) + (b.length : ℚ))

/-- Lexicographic comparison of character lists, as Python `sorted` uses
on strings. -/
def lexLe : List Char → List Char → Bool
  | [], _ => true
  | _ :: _, [] => false
  | a :: as, b :: bs => if a = b then lexLe as bs else decide (a < b)

/-- Lexicographic comparison as a decidable relation. -/
def lexLeP (t u : List Char) : Prop := lexLe t u = true

instance : DecidableRel lexLeP := fun t u =>
  inferInstanceAs (Decidable (lexLe t u = true))

/-- The whitespace tokens of a string, sorted lexicographically. -/
def sortedTokens (l : List Char) : List (List Char) :=
  (wsTokens l).insertionSort lexLeP

/-- The whitespace tokens of a string with duplicates collapsed, sorted
lexicographically. -/
def uniqueSortedTokens (l : List Char) : List (List Char) :=
  (wsTokens l).dedup.insertionSort lexLeP

/-- Modelled from the spec: the token-sort strategy — sort the
whitespace tokens of each side alphabetically, rejoin with spaces, and
apply the character similarity. -/
def tokenSortSim (a b : List Char) : ℚ :=
  charSim (joinSpace (sortedTokens a)) (joinSpace (sortedTokens b))

/-- Modelled from the spec: the token-set strategy — compare the sorted
intersection of the two token sets against the intersection extended
with each side's leftover tokens, taking the best character similarity;
when the token sets overlap and one is contained in the other the score
is 100. -/
def tokenSetSim (a b : List Char) : ℚ :=
  let ta := uniqueSortedTokens a
  let tb := uniqueSortedTokens b
  let sect := ta.filter (fun t => tb.contains t)
  let diffAB := ta.filter (fun t => !tb.contains t)
  let diffBA := tb.filter (fun t => !ta.contains t)
  if sect ≠ [] ∧ (diffAB = [] ∨ diffBA = []) then 100
  else
    max (charSim (joinSpace sect) (joinSpace (sect ++ diffAB)))
      (max (charSim (joinSpace sect) (joinSpace (sect ++ diffBA)))
        (charSim (joinSpace (sect ++ diffAB)) (joinSpace (sect ++ diffBA))))

/-- Modelled from the spec: the partial (substring) strategy — the best
character similarity of the shorter string against any contiguous window
of the longer string of the same length. -/
def windowSim (a b : List Char) : ℚ :=
  let s := if a.length ≤ b.length then a else b
  let l := if a.length ≤ b.length then b else a
  ((List.range (l.length - s.length + 1)).map
    (fun i => charSim s ((l.drop i).take s.length))).foldr max 0

/-- The function `_similarity` of video_resolver.py (rapidfuzz backend):
the returned score is the maximum of the token-set score, the gated
partial score, and the token-sort score.  The partial strategy only
enters when the shorter string is longer than 4 characters.  The plain
character score is computed by the source only for a debug log line and
does not enter the maximum. -/
def _similarity (a b : List Char) : ℚ :=
  let token_set := tokenSetSim a b
  let token_sort := tokenSortSim a b
  let shorter := min a.length b.length
  let part := if shorter > 4 then windowSim a b else 0
  max token_set (max part token_sort)

/-- Threshold `MATCH_THRESHOLD` of video_resolver.py. -/
def MATCH_THRESHOLD : ℚ := 70

/-- Threshold `HIGH_CONFIDENCE_THRESHOLD` of video_resolver.py. -/
def HIGH_CONFIDENCE_THRESHOLD : ℚ := 85

/-- Threshold `AMBIGUITY_GAP` of video_resolver.py. -/
def AMBIGUITY_GAP : ℚ := 10

/-- The function `_decide` of video_resolver.py: tiered decision over
the fixed thresholds. -/
def _decide (top_score second_score : ℚ) : String :=
  if top_score ≥ HIGH_CONFIDENCE_THRESHOLD then "accepted"
  else if top_score ≥ MATCH_THRESHOLD then
    if top_score - second_score ≥ AMBIGUITY_GAP then "accepted"
    else "ambiguous"
  else "rejected"

/-- Round half to even on an exact rational. -/
def roundHalfEven (q : ℚ) : ℤ :=
  let f := q.floor
  if q - f < 1 / 2 then f
  else if q - f > 1 / 2 then f + 1
  else if f % 2 = 0 then f else f + 1

/-- Python `round(x, 1)`, modelled on exact rationals: round to the
nearest multiple of 1/10, ties to even.  (The binary floating-point
representation error of Python floats is not modelled; no tie on the
binary value arises in the theorems below.) -/
def round1 (q : ℚ) : ℚ := (roundHalfEven (10 * q) : ℚ) / 10

/-- A row of the `videos` table as the resolver consumes it. -/
structure Video where
  youtube_video_id : String
  title : String
deriving DecidableEq, Repr

/-- A scored catalog entry, one element of the `scored` list of
`resolve_video_by_title`. -/
structure ScoredCandidate where
  video_id : String
  title : String
  score : ℚ
deriving DecidableEq, Repr

/-- The `video_resolution` metadata dict attached to every non-None
return of the resolver. -/
structure ResolutionMetadata where
  top_score : ℚ
  second_score : ℚ
  decision : String
deriving DecidableEq, Repr

/-- The two non-None result shapes of `resolve_video_by_title`; the
Python `None` return becomes `Option.none`. -/
inductive ResolveResult where
  | accepted (video_id : String) (title : String) (score : ℚ)
      (video_resolution : ResolutionMetadata)
  | clarification (message : String) (candidates : List ScoredCandidate)
      (video_resolution : ResolutionMetadata)
deriving DecidableEq, Repr

/-- Python float formatting of a one-decimal nonnegative score, as the
f-string of the source renders it: `85.0` prints as "85.0", `84.9` as
"84.9". -/
def renderScore1 (q : ℚ) : String :=
  let t := (10 * q).floor
  toString (t / 10) ++ "." ++ toString (t % 10)

/-- The clarification message loop of `resolve_video_by_title`: a
numbered list of candidate titles with their scores. -/
def buildMsg (candidates : List ScoredCandidate) : String :=
  (List.enumFrom 1 candidates).foldl
    (fun m ic =>
      m ++ "  " ++ toString ic.1 ++ ". " ++ ic.2.title ++ " (" ++
        renderScore1 ic.2.score ++ "%)\n")
    "I found a few similar videos. Did you mean:\n"

/-- The scoring loop of `resolve_video_by_title`: normalize each title,
skip candidates whose normalized title is empty, score the rest against
the normalized fragment, rounding each score to one decimal. -/
def scoredList (nq : List Char) (videos : List Video) : List ScoredCandidate :=
  videos.filterMap (fun v =>
    let nt := normalizeChars v.title.data
    if nt = [] then none
    else some ⟨v.youtube_video_id, v.title, round1 (_similarity nq nt)⟩)

/-- Python `list.sort(key=lambda x: x["score"], reverse=True)` is a
stable descending sort: its output is the unique permutation ordered by
score descending with ties in original-position order.  `scoreLe` is
that order on position-tagged candidates; since distinct positions carry
distinct tags the order is total and antisymmetric, so any sorting
algorithm produces exactly the stable descending sort. -/
def scoreLe (p q : Nat × ScoredCandidate) : Prop :=
  q.2.score < p.2.score ∨ (p.2.score = q.2.score ∧ p.1 ≤ q.1)

instance : DecidableRel scoreLe := fun p q =>
  inferInstanceAs
    (Decidable (q.2.score < p.2.score ∨ (p.2.score = q.2.score ∧ p.1 ≤ q.1)))

instance : IsTotal (Nat × ScoredCandidate) scoreLe where
  total p q := by
    rcases lt_trichotomy p.2.score q.2.score with h | h | h
    · exact Or.inr (Or.inl h)
    · rcases Nat.le_total p.1 q.1 with h' | h'
      · exact Or.inl (Or.inr ⟨h, h'⟩)
      · exact Or.inr (Or.inr ⟨h.symm, h'⟩)
    · exact Or.inl (Or.inl h)

instance : IsTrans (Nat × ScoredCandidate) scoreLe where
  trans p q r h₁ h₂ := by
    rcases h₁ with h₁ | ⟨e₁, i₁⟩
    · rcases h₂ with h₂ | ⟨e₂, _⟩
      · exact Or.inl (h₂.trans h₁)
      · exact Or.inl (e₂ ▸ h₁)
    · rcases h₂ with h₂ | ⟨e₂, i₂⟩
      · exact Or.inl (e₁.symm ▸ h₂)
      · exact Or.inr ⟨e₁.trans e₂, i₁.trans i₂⟩

/-- Stable descending sort of the scored list, keeping position tags. -/
def sortScoredIdx (l : List ScoredCandidate) : List (Nat × ScoredCandidate) :=
  l.enum.insertionSort scoreLe

/-- Stable descending sort of the scored list. -/
def sortScored (l : List ScoredCandidate) : List ScoredCandidate :=
  (sortScoredIdx l).map Prod.snd

/-- The function `resolve_video_by_title` of video_resolver.py, as a
function of the candidate list the store fetch returns (the store itself
is out of scope; `None` becomes `none`). -/
def resolve_video_by_title (title_fragment : String) (videos : List Video) :
    Option ResolveResult :=
  if videos.isEmpty then none
  else
    let nq := normalizeChars title_fragment.data
    if nq = [] then none
    else
      let scored := scoredList nq videos
      if scored = [] then none
      else
        match sortScored scored with
        | [] => none
        | top :: rest =>
          let top_score := top.score
          let second_score := match rest with
            | [] => (0 : ℚ)
            | s :: _ => s.score
          let decision := _decide top_score second_score
          let meta : ResolutionMetadata := ⟨top_score, second_score, decision⟩
          if decision = "accepted" then
            some (.accepted top.video_id top.title top_score meta)
          else
            let candidates := (top :: rest).take 3
            some (.clarification (buildMsg candidates) candidates meta)

/-- The function `get_latest_video_from_db` of video_resolver.py, as a
function of the full recency-ordered candidate list: the store fetch
with `limit = offset + 1` is the `take`, and the source returns `None`
exactly when the fetched list has no element at the offset. -/
def get_latest_video_from_db (videos : List Video) (offset : Nat) :
    Option ResolveResult :=
  let fetched := videos.take (offset + 1)
  if h : fetched.length ≤ offset then none
  else
    let v := fetched.get ⟨offset, Nat.lt_of_not_le h⟩
    some (.accepted v.youtube_video_id v.title 100 ⟨100, 0, "accepted"⟩)

/-! ### Shared helper lemmas -/

/-- The decision function only ever returns one of its three labels. -/
theorem decide_cases (t s : ℚ) :
    _decide t s = "accepted" ∨ _decide t s = "ambiguous" ∨
      _decide t s = "rejected" := by
  unfold _decide
  split_ifs <;> simp

/-- The character similarity is never negative. -/
theorem charSim_nonneg (a b : List Char) : 0 ≤ charSim a b := by
  unfold charSim
  split_ifs
  · norm_num
  · positivity

/-- The token-sort similarity is never negative. -/
theorem tokenSortSim_nonneg (a b : List Char) : 0 ≤ tokenSortSim a b :=
  charSim_nonneg _ _

/-! ### C1 — the tiered decision classifier -/

/-- C1: the decision classifier is exactly the tiered rule over the
fixed thresholds 85, 70 and 10: a top score of at least 85 is accepted
regardless of the second score; otherwise a top score of at least 70 is
accepted when the gap to the second score is at least 10 and ambiguous
when the gap is smaller; a top score below 70 is rejected; and no other
outcome is possible. -/
theorem c1_decide_tiered (t s : ℚ) :
    (_decide t s = "accepted" ∨ _decide t s = "ambiguous" ∨
      _decide t s = "rejected") ∧
    (85 ≤ t → _decide t s = "accepted") ∧
    (t < 85 → 70 ≤ t → 10 ≤ t - s → _decide t s = "accepted") ∧
    (t < 85 → 70 ≤ t → t - s < 10 → _decide t s = "ambiguous") ∧
    (t < 70 → _decide t s = "rejected") := by
  refine ⟨decide_cases t s, ?_, ?_, ?_, ?_⟩ <;>
    (intros; unfold _decide HIGH_CONFIDENCE_THRESHOLD MATCH_THRESHOLD AMBIGUITY_GAP
     split_ifs <;> first | rfl | linarith)

/-- Witness for C1 at concrete scores: 85 with a nearly tied runner-up
of 84.9 is accepted; 80 against 71 is ambiguous (gap 9); 80 against 68
is accepted (gap 12); 69.9 is rejected. -/
theorem c1_decide_tiered_witness :
    _decide 85 (849 / 10) = "accepted" ∧ _decide 80 71 = "ambiguous" ∧
    _decide 80 68 = "accepted" ∧ _decide (699 / 10) 0 = "rejected" :=
  ⟨(c1_decide_tiered 85 (849 / 10)).2.1 (by norm_num),
   (c1_decide_tiered 80 71).2.2.2.1 (by norm_num) (by norm_num) (by norm_num),
   (c1_decide_tiered 80 68).2.2.1 (by norm_num) (by norm_num) (by norm_num),
   (c1_decide_tiered (699 / 10) 0).2.2.2.2 (by norm_num)⟩

/-! ### C2 — which strategies enter the similarity maximum -/

/-- C2 counterexample: the similarity score is not bounded below by the
plain character similarity, because `_similarity` leaves the character
score out of its maximum.  For a = "b a" and b = "ba" the character
similarity is 80 while every strategy in the maximum scores 40, so the
returned score is 40 < 80. -/
theorem c2_counterexample :
    _similarity (("b a").data) (("ba").data) <
      charSim (("b a").data) (("ba").data) := by
  with_unfolding_all decide

/-- C2 amended: the similarity score is the maximum of exactly three
strategies — token-set, token-sort, and the length-gated partial
strategy — and is an upper bound for each of them; the plain character
similarity is computed by the source only for a debug log line and does
not enter the maximum, so the returned score can be strictly below it. -/
theorem c2_similarity_max_of_three (a b : List Char) :
    _similarity a b =
      max (tokenSetSim a b)
        (max (if 4 < min a.length b.length then windowSim a b else 0)
          (tokenSortSim a b)) ∧
    tokenSetSim a b ≤ _similarity a b ∧
    tokenSortSim a b ≤ _similarity a b :=
  ⟨rfl, le_max_left _ _, (le_max_right _ _).trans (le_max_right _ _)⟩

/-! ### C3 — the gate on the partial strategy -/

/-- C3 counterexample: with a = "abcde" and b = "abcdexxxxx" the shorter
normalized string has length exactly 5, yet the partial strategy is
evaluated and decides the result: the similarity is 100 while the
token-set and token-sort strategies both stay below 100.  This refutes
the claim that the partial strategy contributes 0 whenever the shorter
length is at most 5. -/
theorem c3_counterexample :
    min ((("abcde").data).length) ((("abcdexxxxx").data).length) = 5 ∧
    _similarity (("abcde").data) (("abcdexxxxx").data) = 100 ∧
    max (tokenSetSim (("abcde").data) (("abcdexxxxx").data))
      (tokenSortSim (("abcde").data) (("abcdexxxxx").data)) < 100 := by
  refine ⟨by decide, ?_, ?_⟩ <;> with_unfolding_all decide

/-- C3 amended: the partial strategy contributes to the similarity
maximum exactly when the shorter string is longer than 4 characters
(that is, of length at least 5, one less than the spec's bound): when
the shorter length is at most 4 the similarity is the maximum of the
token-set and token-sort strategies alone, and when the shorter length
is 5 or more the partial strategy enters the maximum. -/
theorem c3_gate_at_four (a b : List Char) :
    (min a.length b.length ≤ 4 →
      _similarity a b = max (tokenSetSim a b) (tokenSortSim a b)) ∧
    (4 < min a.length b.length →
      _similarity a b =
        max (tokenSetSim a b) (max (windowSim a b) (tokenSortSim a b))) := by
  constructor
  · intro h
    simp only [_similarity]
    rw [if_neg (by omega), max_eq_right (tokenSortSim_nonneg a b)]
  · intro h
    simp only [_similarity]
    rw [if_pos h]

/-- Witness for C3 at concrete inputs: for "ab" vs "cd" (shorter length
2) the partial strategy is gated out; for "abcde" vs "abcdexxxxx"
(shorter length 5) it participates. -/
theorem c3_gate_at_four_witness :
    _similarity (("ab").data) (("cd").data) =
      max (tokenSetSim (("ab").data) (("cd").data))
        (tokenSortSim (("ab").data) (("cd").data)) ∧
    _similarity (("abcde").data) (("abcdexxxxx").data) =
      max (tokenSetSim (("abcde").data) (("abcdexxxxx").data))
        (max (windowSim (("abcde").data) (("abcdexxxxx").data))
          (tokenSortSim (("abcde").data) (("abcdexxxxx").data))) :=
  ⟨(c3_gate_at_four (("ab").data) (("cd").data)).1 (by decide),
   (c3_gate_at_four (("abcde").data) (("abcdexxxxx").data)).2 (by decide)⟩

/-! ### C6 — the positional lookup -/

/-- C6: the positional lookup returns `none` when the offset is past the
end of the recency-ordered candidate list, and otherwise returns the
accepted shape built from the candidate at the offset with score exactly
100 and metadata top 100 / second 0 / decision accepted; no other
outcome shape is possible and no normalization or scoring is involved. -/
theorem c6_latest_by_offset (videos : List Video) (offset : Nat) :
    (videos.length ≤ offset → get_latest_video_from_db videos offset = none) ∧
    (∀ h : offset < videos.length,
      get_latest_video_from_db videos offset =
        some (.accepted (videos.get ⟨offset, h⟩).youtube_video_id
          (videos.get ⟨offset, h⟩).title 100 ⟨100, 0, "accepted"⟩)) := by
  constructor
  · intro h
    unfold get_latest_video_from_db
    rw [dif_pos (by simp; omega)]
  · intro h
    unfold get_latest_video_from_db
    rw [dif_neg (by simp; omega)]
    have hg : (videos.take (offset + 1)).get
        ⟨offset, by simp; omega⟩ = videos.get ⟨offset, h⟩ :=
      (List.get_take videos h (Nat.lt_succ_self offset)).symm
    simp only [hg]

/-- Witness for C6: in a three-element catalog, offset 1 yields the
middle element with score 100, and offset 3 yields `none`. -/
theorem c6_latest_by_offset_witness :
    get_latest_video_from_db [⟨"a", "ta"⟩, ⟨"b", "tb"⟩, ⟨"c", "tc"⟩] 1 =
      some (.accepted ("b") ("tb") 100 ⟨100, 0, "accepted"⟩) ∧
    get_latest_video_from_db [⟨"a", "ta"⟩, ⟨"b", "tb"⟩, ⟨"c", "tc"⟩] 3 = none :=
  ⟨(c6_latest_by_offset [⟨"a", "ta"⟩, ⟨"b", "tb"⟩, ⟨"c", "tc"⟩] 1).2
      (by norm_num),
   (c6_latest_by_offset [⟨"a", "ta"⟩, ⟨"b", "tb"⟩, ⟨"c", "tc"⟩] 3).1
      (by norm_num)⟩

/-! ### C9 — determinism of resolve -/

/-- C9: resolve is deterministic — it is a pure function of the query
text and the candidate list, so equal input pairs always produce equal
resolution outcomes; the embedding has no source of randomness, time, or
cross-call state. -/
theorem c9_resolve_deterministic (q₁ q₂ : String) (v₁ v₂ : List Video)
    (hq : q₁ = q₂) (hv : v₁ = v₂) :
    resolve_video_by_title q₁ v₁ = resolve_video_by_title q₂ v₂ := by
  subst hq
  subst hv
  rfl

/-- Witness for C9 at a concrete repeated call. -/
theorem c9_resolve_deterministic_witness :
    resolve_video_by_title ("last video") [⟨"id1", "My last video"⟩] =
      resolve_video_by_title ("last video") [⟨"id1", "My last video"⟩] :=
  c9_resolve_deterministic ("last video") ("last video")
    [⟨"id1", "My last video"⟩] [⟨"id1", "My last video"⟩] rfl rfl

/-! ### C10 — rounding to one decimal before ranking and classifying -/

/-- C10: every score the resolver ranks and classifies is the raw
similarity rounded to one decimal: each scored candidate carries
`round1` of the similarity of the normalized query and its normalized
title; and rounding can lift a raw score in [84.95, 85) to 85, so such
a score is classified by the high-confidence rule as if it were at
least 85 (at raw value 84.96 against a second score of 80 the unrounded
decision would be ambiguous, the rounded one is accepted). -/
theorem c10_scores_rounded :
    (∀ nq videos sc, sc ∈ scoredList nq videos →
      ∃ v, v ∈ videos ∧
        sc = ⟨v.youtube_video_id, v.title,
          round1 (_similarity nq (normalizeChars v.title.data))⟩) ∧
    (∃ r : ℚ, 1699 / 20 ≤ r ∧ r < 85 ∧ round1 r = 85 ∧
      _decide (round1 r) 80 = "accepted" ∧ _decide r 80 = "ambiguous") := by
  constructor
  · intro nq videos sc h
    unfold scoredList at h
    rw [List.mem_filterMap] at h
    obtain ⟨v, hv, he⟩ := h
    refine ⟨v, hv, ?_⟩
    by_cases hnt : normalizeChars v.title.data = []
    · simp [hnt] at he
    · simp [hnt] at he
      exact he.symm
  · refine ⟨2124 / 25, by norm_num, by norm_num, ?_, ?_, ?_⟩ <;>
      with_unfolding_all decide

/-- Witness for C10: in a singleton catalog whose title equals the
query, the single scored candidate is the rounded similarity of the
normalized strings (here exactly 100). -/
theorem c10_scores_rounded_witness :
    ∃ v, v ∈ [Video.mk ("id1") ("ab")] ∧
      (⟨"id1", "ab", (100 : ℚ)⟩ : ScoredCandidate) =
        ⟨v.youtube_video_id, v.title,
          round1 (_similarity (("ab").data) (normalizeChars v.title.data))⟩ :=
  c10_scores_rounded.1 (("ab").data) [⟨"id1", "ab"⟩] ⟨"id1", "ab", 100⟩
    (by with_unfolding_all decide)

/-! ### Sorting helpers shared by the resolver claims -/

/-- Sorting the scored list preserves its length. -/
theorem sortScored_length (l : List ScoredCandidate) :
    (sortScored l).length = l.length := by
  unfold sortScored sortScoredIdx
  rw [List.length_map, List.length_insertionSort, List.enum_length]

/-- The sorted scored list is a permutation of the scored list. -/
theorem sortScored_perm (l : List ScoredCandidate) : (sortScored l).Perm l := by
  unfold sortScored sortScoredIdx
  have h1 : ((l.enum.insertionSort scoreLe).map Prod.snd).Perm (l.enum.map Prod.snd) :=
    (List.perm_insertionSort scoreLe l.enum).map Prod.snd
  simpa using h1

/-- The sorted scored list is descending in score. -/
theorem sortScored_pairwise (l : List ScoredCandidate) :
    (sortScored l).Pairwise (fun a b => b.score ≤ a.score) := by
  unfold sortScored sortScoredIdx
  refine List.Pairwise.map Prod.snd ?_ (List.sorted_insertionSort scoreLe l.enum)
  intro p q hpq
  rcases hpq with h | ⟨e, _⟩
  · exact le_of_lt h
  · exact le_of_eq e.symm

/-! ### C4 — when resolve returns NoMatch -/

/-- C4: resolve returns the no-match outcome (`none`) exactly when the
candidate list is empty, or the query normalizes to the empty string, or
every candidate's normalized title is empty; in every other case it
returns an accepted or clarification outcome. -/
theorem c4_none_iff (q : String) (videos : List Video) :
    resolve_video_by_title q videos = none ↔
      videos = [] ∨ normalizeChars q.data = [] ∨
        ∀ v ∈ videos, normalizeChars v.title.data = [] := by
  simp only [resolve_video_by_title]
  split_ifs with h1 h2 h3
  · simp [List.isEmpty_iff.mp h1]
  · simp [h2]
  · simp only [true_iff]
    refine Or.inr (Or.inr (fun v hv => ?_))
    have hz := List.filterMap_eq_nil_iff.mp h3 v hv
    by_cases hnt : normalizeChars v.title.data = []
    · exact hnt
    · simp [hnt] at hz
  · have hv0 : videos ≠ [] := fun hv => h1 (by simp [hv])
    have hall : ¬ ∀ v ∈ videos, normalizeChars v.title.data = [] := by
      intro hall
      exact h3 (List.filterMap_eq_nil_iff.mpr (fun v hv => by simp [hall v hv]))
    split
    · exfalso
      rename_i hsort
      have := sortScored_length (scoredList (normalizeChars q.data) videos)
      rw [hsort] at this
      exact h3 (List.length_eq_zero.mp this.symm)
    · split <;> simp [hv0, h2, hall]

/-- Witness for C4: the empty catalog yields `none` for any query. -/
theorem c4_none_iff_witness : resolve_video_by_title ("anything") [] = none :=
  (c4_none_iff ("anything") []).mpr (Or.inl rfl)

/-! ### C5 — the shape of a clarification outcome -/

/-- C5: whenever resolve returns a clarification outcome (decision
ambiguous or rejected), that outcome carries no top-level video id (the
clarification constructor has no such field), its candidate list has
between 1 and 3 elements sorted descending by score, and its message is
the numbered template built from exactly those candidates. -/
theorem c5_clarification_shape (q : String) (videos : List Video)
    (msg : String) (cands : List ScoredCandidate) (meta : ResolutionMetadata)
    (h : resolve_video_by_title q videos = some (.clarification msg cands meta)) :
    (1 ≤ cands.length ∧ cands.length ≤ 3) ∧
    cands.Pairwise (fun a b => b.score ≤ a.score) ∧
    msg = buildMsg cands ∧
    (meta.decision = "ambiguous" ∨ meta.decision = "rejected") := by
  simp only [resolve_video_by_title] at h
  split_ifs at h
  split at h
  · exact absurd h (by simp)
  · rename_i top rest hsort
    split_ifs at h with hdec
    · exact absurd h (by simp)
    · simp only [Option.some.injEq, ResolveResult.clarification.injEq] at h
      obtain ⟨hmsg, hcands, hmeta⟩ := h
      have hlen : 1 ≤ cands.length ∧ cands.length ≤ 3 := by
        rw [← hcands]
        simp only [List.length_take, List.length_cons]
        omega
      have hpw : cands.Pairwise (fun a b => b.score ≤ a.score) := by
        rw [← hcands]
        exact List.Pairwise.sublist (List.take_sublist 3 _)
          (hsort ▸ sortScored_pairwise (scoredList (normalizeChars q.data) videos))
      subst hmeta
      exact ⟨hlen, hpw, by rw [← hmsg, hcands],
        (decide_cases _ _).resolve_left hdec⟩

/-- Witness for C5 at a concrete rejected query: both candidates score 0,
so resolve returns a clarification with two candidates and the rendered
message. -/
theorem c5_clarification_shape_witness :
    (1 ≤ ([⟨"id1", "ab", 0⟩, ⟨"id2", "cd", 0⟩] : List ScoredCandidate).length ∧
      ([⟨"id1", "ab", 0⟩, ⟨"id2", "cd", 0⟩] : List ScoredCandidate).length ≤ 3) ∧
    ([⟨"id1", "ab", 0⟩, ⟨"id2", "cd", 0⟩] : List ScoredCandidate).Pairwise
      (fun a b => b.score ≤ a.score) ∧
    "I found a few similar videos. Did you mean:\n  1. ab (0.0%)\n  2. cd (0.0%)\n" =
      buildMsg [⟨"id1", "ab", 0⟩, ⟨"id2", "cd", 0⟩] ∧
    ((⟨0, 0, "rejected"⟩ : ResolutionMetadata).decision = "ambiguous" ∨
      (⟨0, 0, "rejected"⟩ : ResolutionMetadata).decision = "rejected") :=
  c5_clarification_shape ("zz") [⟨"id1", "ab"⟩, ⟨"id2", "cd"⟩]
    "I found a few similar videos. Did you mean:\n  1. ab (0.0%)\n  2. cd (0.0%)\n"
    [⟨"id1", "ab", 0⟩, ⟨"id2", "cd", 0⟩] ⟨0, 0, "rejected"⟩
    (by with_unfolding_all decide)

/-! ### C8 — stability of the descending sort -/

/-- C8: the resolver's sort is the stable descending sort: the
position-tagged sorted list is a permutation of the position-tagged
input, the resolver's ranking is its projection, and any two entries of
the sorted list are either in strictly descending score order or carry
equal scores with the earlier catalog position first — so on a score tie
the earlier catalog entry precedes the later one. -/
theorem c8_sort_stable (l : List ScoredCandidate) :
    (sortScoredIdx l).Perm l.enum ∧
    sortScored l = (sortScoredIdx l).map Prod.snd ∧
    (sortScoredIdx l).Pairwise (fun p q =>
      q.2.score < p.2.score ∨ (p.2.score = q.2.score ∧ p.1 < q.1)) := by
  refine ⟨List.perm_insertionSort scoreLe l.enum, rfl, ?_⟩
  have hs : (sortScoredIdx l).Pairwise scoreLe :=
    List.sorted_insertionSort scoreLe l.enum
  have hperm : ((sortScoredIdx l).map Prod.fst).Perm (l.enum.map Prod.fst) :=
    (List.perm_insertionSort scoreLe l.enum).map Prod.fst
  have hnodup : ((sortScoredIdx l).map Prod.fst).Nodup := by
    refine hperm.symm.nodup ?_
    rw [List.enum_map_fst]
    exact List.nodup_range _
  have hne : (sortScoredIdx l).Pairwise (fun p q => p.1 ≠ q.1) :=
    List.pairwise_map.mp hnodup
  refine (hs.and hne).imp ?_
  rintro p q ⟨hle, hne'⟩
  rcases hle with hlt | ⟨he, hle'⟩
  · exact Or.inl hlt
  · exact Or.inr ⟨he, lt_of_le_of_ne hle' hne'⟩

/-! ### Normalizer lemmas for C7 -/

/-- A word character is not an emoji character: word characters are
ASCII while every emoji range lies above the zero-width joiner 0x200D. -/
theorem word_not_emoji (c : Char) (h : pyIsWordChar c = true) :
    isEmojiChar c = false := by
  have hb : c.toNat ≤ 122 := by
    simp only [pyIsWordChar, Bool.or_eq_true, Bool.and_eq_true,
      decide_eq_true_eq, beq_iff_eq] at h
    omega
  rw [Bool.eq_false_iff]
  intro hemo
  simp only [isEmojiChar, Bool.or_eq_true, Bool.and_eq_true,
    decide_eq_true_eq, beq_iff_eq] at hemo
  omega

/-- A word character is not U+2116 NUMERO SIGN. -/
theorem word_ne_numero (c : Char) (h : pyIsWordChar c = true) : c ≠ '№' := by
  intro he
  subst he
  exact absurd h (by decide)

/-- A word character is not the hash sign. -/
theorem word_ne_hash (c : Char) (h : pyIsWordChar c = true) : c ≠ '#' := by
  intro he
  subst he
  exact absurd h (by decide)

/-- Every character the punctuation step emits is a word or space
character. -/
theorem punctToSpace_chars (l : List Char) :
    ∀ c ∈ punctToSpace l, pyIsWordChar c = true ∨ pyIsSpace c = true := by
  intro c hc
  unfold punctToSpace at hc
  rw [List.mem_map] at hc
  obtain ⟨d, _, hd⟩ := hc
  by_cases h : (pyIsWordChar d || pyIsSpace d) = true
  · rw [if_pos h] at hd
    subst hd
    simpa using h
  · rw [if_neg h] at hd
    subst hd
    exact Or.inr (by decide)

/-- Every token the tokenizer produces is nonempty and consists of
non-space characters drawn from the input. -/
theorem wsTokens_spec : ∀ (l : List Char), ∀ t ∈ wsTokens l,
    t ≠ [] ∧ ∀ c ∈ t, pyIsSpace c = false ∧ c ∈ l := by
  intro l
  induction l with
  | nil => intro t ht; simp [wsTokens] at ht
  | cons c rest ih =>
    intro t ht
    by_cases hc : pyIsSpace c = true
    · simp only [wsTokens, if_pos hc] at ht
      obtain ⟨hne, hrest⟩ := ih t ht
      exact ⟨hne, fun d hd => ⟨(hrest d hd).1, List.mem_cons_of_mem c (hrest d hd).2⟩⟩
    · simp only [wsTokens, if_neg hc] at ht
      have hc' : pyIsSpace c = false := Bool.eq_false_iff.mpr hc
      cases rest with
      | nil =>
        replace ht : t ∈ [[c]] := ht
        simp only [List.mem_singleton] at ht
        subst ht
        exact ⟨by simp, fun d hd => by
          simp only [List.mem_singleton] at hd
          subst hd
          exact ⟨hc', by simp⟩⟩
      | cons e rest' =>
        replace ht : t ∈ (if pyIsSpace e = true then [c] :: wsTokens (e :: rest')
            else match wsTokens (e :: rest') with
              | [] => [[c]]
              | t' :: ts' => (c :: t') :: ts') := ht
        by_cases he : pyIsSpace e = true
        · rw [if_pos he] at ht
          rcases List.mem_cons.mp ht with h1 | h1
          · subst h1
            exact ⟨by simp, fun d hd => by
              simp only [List.mem_singleton] at hd
              subst hd
              exact ⟨hc', by simp⟩⟩
          · obtain ⟨hne, hrest⟩ := ih t h1
            exact ⟨hne, fun d hd =>
              ⟨(hrest d hd).1, List.mem_cons_of_mem c (hrest d hd).2⟩⟩
        · rw [if_neg he] at ht
          cases hts : wsTokens (e :: rest') with
          | nil =>
            rw [hts] at ht
            simp only [List.mem_singleton] at ht
            subst ht
            exact ⟨by simp, fun d hd => by
              simp only [List.mem_singleton] at hd
              subst hd
              exact ⟨hc', by simp⟩⟩
          | cons t' ts' =>
            rw [hts] at ht
            rcases List.mem_cons.mp ht with h1 | h1
            · subst h1
              obtain ⟨-, hrest⟩ := ih t' (by rw [hts]; exact List.mem_cons_self t' ts')
              refine ⟨by simp, fun d hd => ?_⟩
              rcases List.mem_cons.mp hd with h2 | h2
              · subst h2
                exact ⟨hc', by simp⟩
              · exact ⟨(hrest d h2).1, List.mem_cons_of_mem c (hrest d h2).2⟩
            · obtain ⟨hne, hrest⟩ := ih t (by rw [hts]; exact List.mem_cons_of_mem t' h1)
              exact ⟨hne, fun d hd =>
                ⟨(hrest d hd).1, List.mem_cons_of_mem c (hrest d hd).2⟩⟩

/-- Every character of the joined token list comes from a token or is
the separating space. -/
theorem mem_joinSpace (c : Char) :
    ∀ ts, c ∈ joinSpace ts → (∃ t ∈ ts, c ∈ t) ∨ c = ' '
  | [], hc => by simp [joinSpace] at hc
  | [t], hc => Or.inl ⟨t, by simp, by simpa [joinSpace] using hc⟩
  | t :: u :: ts'', hc => by
    replace hc : c ∈ t ++ ' ' :: joinSpace (u :: ts'') := hc
    rcases List.mem_append.mp hc with h | h
    · exact Or.inl ⟨t, by simp, h⟩
    · rcases List.mem_cons.mp h with h | h
      · exact Or.inr h
      · rcases mem_joinSpace c (u :: ts'') h with ⟨t', ht', hct'⟩ | h
        · exact Or.inl ⟨t', List.mem_cons_of_mem t ht', hct'⟩
        · exact Or.inr h

/-- One-step unfolding of the tokenizer on a cons cell. -/
theorem wsTokens_cons (c : Char) (rest : List Char) :
    wsTokens (c :: rest) =
      if pyIsSpace c = true then wsTokens rest
      else
        match rest, wsTokens rest with
        | [], _ => [[c]]
        | d :: _, ts =>
          if pyIsSpace d = true then [c] :: ts
          else
            match ts with
            | [] => [[c]]
            | t :: ts' => (c :: t) :: ts' := by
  rw [wsTokens.eq_def]

/-- The tokenizer on a single non-space character. -/
theorem wsTokens_singleton (c : Char) (hc : pyIsSpace c = false) :
    wsTokens [c] = [[c]] := by
  rw [wsTokens_cons, if_neg (by simp [hc])]

/-- The tokenizer on two leading characters, the first one non-space. -/
theorem wsTokens_cons_cons (c d : Char) (rest : List Char)
    (hc : pyIsSpace c = false) :
    wsTokens (c :: d :: rest) =
      if pyIsSpace d = true then [c] :: wsTokens (d :: rest)
      else
        match wsTokens (d :: rest) with
        | [] => [[c]]
        | t :: ts' => (c :: t) :: ts' := by
  rw [wsTokens_cons, if_neg (by simp [hc])]

/-- Tokenizing a single whitespace-free nonempty token yields exactly
that token. -/
theorem wsTokens_single : ∀ (t : List Char), t ≠ [] →
    (∀ c ∈ t, pyIsSpace c = false) → wsTokens t = [t]
  | [], hne, _ => absurd rfl hne
  | [c], _, hns => wsTokens_singleton c (hns c (by simp))
  | c :: e :: t'', _, hns => by
    have hc : pyIsSpace c = false := hns c (by simp)
    have he : pyIsSpace e = false := hns e (by simp)
    have ih := wsTokens_single (e :: t'') (by simp)
      (fun d hd => hns d (List.mem_cons_of_mem c hd))
    rw [wsTokens_cons_cons c e t'' hc, if_neg (by simp [he]), ih]

/-- Tokenizing a whitespace-free nonempty token followed by a space and
a remainder yields the token followed by the tokens of the remainder. -/
theorem wsTokens_append_space : ∀ (t : List Char) (r : List Char), t ≠ [] →
    (∀ c ∈ t, pyIsSpace c = false) →
    wsTokens (t ++ ' ' :: r) = t :: wsTokens r
  | [], _, hne, _ => absurd rfl hne
  | [c], r, _, hns => by
    have hc : pyIsSpace c = false := hns c (by simp)
    have hsp : pyIsSpace ' ' = true := by decide
    simp only [List.cons_append, List.nil_append]
    rw [wsTokens_cons_cons c ' ' r hc, if_pos hsp, wsTokens_cons, if_pos hsp]
  | c :: e :: t'', r, _, hns => by
    have hc : pyIsSpace c = false := hns c (by simp)
    have he : pyIsSpace e = false := hns e (by simp)
    have ih := wsTokens_append_space (e :: t'') r (by simp)
      (fun d hd => hns d (List.mem_cons_of_mem c hd))
    simp only [List.cons_append] at ih ⊢
    rw [wsTokens_cons_cons c e (t'' ++ ' ' :: r) hc, if_neg (by simp [he]), ih]

/-- Tokenizing the space-joined form of a list of nonempty
whitespace-free tokens recovers exactly those tokens. -/
theorem wsTokens_joinSpace : ∀ (ts : List (List Char)),
    (∀ t ∈ ts, t ≠ []) → (∀ t ∈ ts, ∀ c ∈ t, pyIsSpace c = false) →
    wsTokens (joinSpace ts) = ts
  | [], _, _ => rfl
  | [t], h1, h2 =>
    wsTokens_single t (h1 t (by simp)) (h2 t (by simp))
  | t :: u :: ts'', h1, h2 => by
    have hjoin : joinSpace (t :: u :: ts'') = t ++ ' ' :: joinSpace (u :: ts'') :=
      rfl
    rw [hjoin, wsTokens_append_space t _ (h1 t (by simp)) (h2 t (by simp)),
      wsTokens_joinSpace (u :: ts'')
        (fun v hv => h1 v (List.mem_cons_of_mem t hv))
        (fun v hv => h2 v (List.mem_cons_of_mem t hv))]

/-- Collapsing whitespace twice is the same as collapsing it once. -/
theorem collapseWs_idem (z : List Char) :
    collapseWs (collapseWs z) = collapseWs z := by
  unfold collapseWs
  rw [wsTokens_joinSpace (wsTokens z) (fun t ht => (wsTokens_spec z t ht).1)
    (fun t ht c hc => ((wsTokens_spec z t ht).2 c hc).1)]

/-- Every character of a normalized string is a word character or the
single space. -/
theorem normalizeChars_chars (l : List Char) :
    ∀ c ∈ normalizeChars l, pyIsWordChar c = true ∨ c = ' ' := by
  intro c hc
  unfold normalizeChars collapseWs at hc
  rcases mem_joinSpace c _ hc with ⟨t, ht, hct⟩ | h
  · obtain ⟨-, hspec⟩ := wsTokens_spec _ t ht
    obtain ⟨hns, hmem⟩ := hspec c hct
    rcases punctToSpace_chars _ c hmem with hw | hs
    · exact Or.inl hw
    · rw [hns] at hs
      exact absurd hs (by simp)
  · exact Or.inr h

/-- Mapping the lowercase function over a string it fixes pointwise is
the identity. -/
theorem map_pyLower_fixed : ∀ (l : List Char), (∀ c ∈ l, pyLower c = c) →
    l.map pyLower = l
  | [], _ => rfl
  | c :: rest, h => by
    simp only [List.map_cons]
    rw [h c (by simp), map_pyLower_fixed rest (fun d hd => h d (by simp [hd]))]

/-- NFKD is the identity on a string of decomposition-free characters. -/
theorem nfkd_fixed : ∀ (l : List Char), (∀ c ∈ l, nfkdChar c = [c]) →
    nfkd l = l
  | [], _ => rfl
  | c :: rest, h => by
    unfold nfkd
    simp only [List.flatMap_cons]
    rw [h c (by simp)]
    have := nfkd_fixed rest (fun d hd => h d (by simp [hd]))
    unfold nfkd at this
    rw [this]
    rfl

/-- Emoji removal is the identity on an emoji-free string. -/
theorem removeEmoji_fixed (l : List Char)
    (h : ∀ c ∈ l, isEmojiChar c = false) : removeEmoji l = l := by
  unfold removeEmoji
  rw [List.filter_eq_self]
  intro a ha
  simp [h a ha]

/-- One-step unfolding of the hashtag scanner outside a hashtag run. -/
theorem rhAux_false_cons (c : Char) (rest : List Char) :
    rhAux false (c :: rest) =
      if (decide (c = '#') &&
          match rest with | [] => false | d :: _ => pyIsWordChar d) = true then
        rhAux true rest
      else c :: rhAux false rest := rfl

/-- The hashtag scanner is the identity on a hash-free string. -/
theorem rhAux_false_fixed : ∀ (l : List Char), (∀ c ∈ l, c ≠ '#') →
    rhAux false l = l
  | [], _ => rfl
  | c :: rest, h => by
    rw [rhAux_false_cons, if_neg (by simp [h c (by simp)]),
      rhAux_false_fixed rest (fun d hd => h d (by simp [hd]))]

/-- Hashtag removal is the identity on a hash-free string. -/
theorem removeHashtags_fixed (l : List Char) (h : ∀ c ∈ l, c ≠ '#') :
    removeHashtags l = l :=
  rhAux_false_fixed l h

/-- The punctuation step is the identity on a string of word and space
characters. -/
theorem punctToSpace_fixed : ∀ (l : List Char),
    (∀ c ∈ l, pyIsWordChar c = true ∨ c = ' ') → punctToSpace l = l
  | [], _ => rfl
  | c :: rest, h => by
    unfold punctToSpace
    simp only [List.map_cons]
    have hc : (if pyIsWordChar c || pyIsSpace c then c else ' ') = c := by
      rcases h c (by simp) with hw | hs
      · rw [if_pos (by simp [hw])]
      · subst hs
        rw [if_pos (by decide)]
    rw [hc]
    have := punctToSpace_fixed rest (fun d hd => h d (by simp [hd]))
    unfold punctToSpace at this
    rw [this]

/-- Collapsing whitespace leaves a normalized string unchanged. -/
theorem collapseWs_normalizeChars (l : List Char) :
    collapseWs (normalizeChars l) = normalizeChars l := by
  unfold normalizeChars
  exact collapseWs_idem _

/-! ### C7 — idempotence of the normalizer -/

/-- C7 counterexample: the normalizer is not idempotent on every input.
For "№" (U+2116 NUMERO SIGN) the lowercase step leaves the sign
unchanged (it has no lowercase mapping), the NFKD step then decomposes
it to "No" with an uppercase letter, and no later step lowercases
again, so one pass yields "No"; a second pass lowercases that to
"no". -/
theorem c7_counterexample :
    _normalize (_normalize ("№")) ≠ _normalize ("№") := by
  with_unfolding_all decide

/-- C7 amended: the normalizer is idempotent on every input whose
normalized form is fixed by the lowercase step (as is the case whenever
NFKD introduces no uppercase letter, in particular for all ASCII
inputs); the unrestricted claim fails, as the counterexample "№"
shows. -/
theorem c7_normalize_idempotent_on_lower_fixed (x : String)
    (h : ∀ c ∈ (_normalize x).data, pyLower c = c) :
    _normalize (_normalize x) = _normalize x := by
  unfold _normalize
  show String.mk (normalizeChars (normalizeChars x.data)) =
    String.mk (normalizeChars x.data)
  congr 1
  have h' : ∀ c ∈ normalizeChars x.data, pyLower c = c := h
  have hshape : ∀ c ∈ normalizeChars x.data, pyIsWordChar c = true ∨ c = ' ' :=
    normalizeChars_chars x.data
  have hnf : ∀ c ∈ normalizeChars x.data, nfkdChar c = [c] := by
    intro c hc
    rcases hshape c hc with hw | hs
    · unfold nfkdChar
      rw [if_neg (word_ne_numero c hw)]
    · subst hs
      decide
  have hem : ∀ c ∈ normalizeChars x.data, isEmojiChar c = false := by
    intro c hc
    rcases hshape c hc with hw | hs
    · exact word_not_emoji c hw
    · subst hs
      decide
  have hha : ∀ c ∈ normalizeChars x.data, c ≠ '#' := by
    intro c hc
    rcases hshape c hc with hw | hs
    · exact word_ne_hash c hw
    · subst hs
      decide
  calc normalizeChars (normalizeChars x.data)
      = collapseWs (punctToSpace (removeHashtags (removeEmoji
          (nfkd ((normalizeChars x.data).map pyLower))))) := rfl
    _ = collapseWs (punctToSpace (removeHashtags (removeEmoji
          (nfkd (normalizeChars x.data))))) := by
        rw [map_pyLower_fixed _ h']
    _ = collapseWs (punctToSpace (removeHashtags
          (removeEmoji (normalizeChars x.data)))) := by
        rw [nfkd_fixed _ hnf]
    _ = collapseWs (punctToSpace (removeHashtags (normalizeChars x.data))) := by
        rw [removeEmoji_fixed _ hem]
    _ = collapseWs (punctToSpace (normalizeChars x.data)) := by
        rw [removeHashtags_fixed _ hha]
    _ = collapseWs (normalizeChars x.data) := by
        rw [punctToSpace_fixed _ hshape]
    _ = normalizeChars x.data := collapseWs_normalizeChars x.data

/-- Witness for C7 (amended) on a concrete noisy title: its normalized
form is all lowercase, so a second normalization pass changes nothing. -/
theorem c7_normalize_idempotent_witness :
    _normalize (_normalize ("Summer Trip to Goa!! #shorts")) =
      _normalize ("Summer Trip to Goa!! #shorts") :=
  c7_normalize_idempotent_on_lower_fixed ("Summer Trip to Goa!! #shorts")
    (by with_unfolding_all decide)
